import Mathlib

/-!
Verification of the two-stage event pipeline of this repository:

* capture (EventSourcingService.process_note_versions in
  src/shared/features/event_sourcing/service.py), which mirrors rows of the
  domain table public.note_versions into the raw-event ledger and advances a
  persisted checkpoint, and
* semantic reduction (SemanticReducerService.process_event in
  src/shared/features/semantic_reducer/service.py), which turns one raw event
  into a deduplicated semantic event via NoteVersionReducer.

The Python code is shallowly embedded: the relevant database tables become
lists inside a state record, every SQL statement of the repositories becomes a
pure function on that record, and a whole service call becomes a function from
the state to a pair of an Except result and the committed state.  A call that
raises returns the original state, which models the transaction rollback that
psycopg performs when the service re-raises.  Python unbounded integers are
Int, timestamps are Int (an abstract tick; datetime.now() becomes an explicit
argument), and the SHA-256 digest of hashlib is an abstract parameter
H : String -> String, since no claim depends on the internals of the digest,
only on the strings fed to it.
-/

/-! ### Python int() applied to a string

The capture service executes int(last_event_id_str) on the checkpoint value
and str(max_event_id) when writing it back.  str of an integer is embedded as
toString.  pyInt? below models int() on a string: surrounding whitespace is
stripped, an optional sign is followed by decimal digits in which single
underscores may appear between digits.  (Unicode digit characters, and the few
exotic whitespace characters Python additionally strips, are not modelled;
they never arise, as the pipeline itself only ever writes toString of an
integer.) -/

/-- After the leading digit, Python int() accepts digits with single
underscores strictly between digits. -/
def digitsGroupOk : List Char → Bool
  | [] => true
  | c :: rest =>
    if c = '_' then
      match rest with
      | [] => false
      | d :: rest2 => d.isDigit && digitsGroupOk rest2
    else c.isDigit && digitsGroupOk rest

/-- A valid unsigned digit group for Python int(): nonempty, starts with a
digit, then digitsGroupOk. -/
def pyDigitsOk : List Char → Bool
  | [] => false
  | c :: rest => c.isDigit && digitsGroupOk rest

/-- Decimal value of a list of digit characters, most significant first. -/
def digitsVal (cs : List Char) : Nat :=
  cs.foldl (fun a c => 10 * a + (c.toNat - 48)) 0

/-- Unsigned part of Python int(): validate the grammar, then read the digits
(ignoring the underscores). -/
def pyDigits? (cs : List Char) : Option Nat :=
  if pyDigitsOk cs then some (digitsVal (cs.filter Char.isDigit)) else none

/-- Strip leading and trailing whitespace, as Python int() does. -/
def stripChars (cs : List Char) : List Char :=
  ((cs.dropWhile Char.isWhitespace).reverse.dropWhile Char.isWhitespace).reverse

/-- Sign handling of Python int(). -/
def pyIntCore : List Char → Option Int
  | [] => none
  | c :: rest =>
    if c = '-' then (pyDigits? rest).map (fun n => -(n : Int))
    else if c = '+' then (pyDigits? rest).map (fun n => (n : Int))
    else (pyDigits? (c :: rest)).map (fun n => (n : Int))

/-- Model of Python int(s) for a string s: some value, or none when int()
raises ValueError. -/
def pyInt? (s : String) : Option Int :=
  pyIntCore (stripChars s.toList)

/-! Round trip: pyInt? (toString i) = some i.  toString on Nat is Nat.repr,
which is Nat.toDigitsCore; we relate it to the fuel-based decDigitsF and
compute. -/

/-- Big-endian decimal digits of n, with explicit fuel (adequate when
n < 10 ^ fuel). -/
def decDigitsF : Nat → Nat → List Char
  | 0, _ => []
  | f + 1, n =>
    if n / 10 = 0 then [Nat.digitChar (n % 10)]
    else decDigitsF f (n / 10) ++ [Nat.digitChar (n % 10)]

theorem toDigitsCore_eq_decDigitsF (f : Nat) : ∀ (n : Nat) (ds : List Char),
    Nat.toDigitsCore 10 f n ds = decDigitsF f n ++ ds := by
  induction f with
  | zero => intro n ds; rfl
  | succ f ih =>
    intro n ds
    simp only [Nat.toDigitsCore, decDigitsF]
    by_cases h : n / 10 = 0
    · simp [h]
    · simp [h, ih (n / 10) (Nat.digitChar (n % 10) :: ds)]

/-- The ten decimal digit characters. -/
def decDigitChars : List Char := (List.range 10).map Nat.digitChar

theorem digitChar_mem_decDigitChars : ∀ m < 10, Nat.digitChar m ∈ decDigitChars := by
  decide

theorem decDigitsF_mem (f : Nat) : ∀ (n : Nat), ∀ c ∈ decDigitsF f n, c ∈ decDigitChars := by
  induction f with
  | zero => intro n c hc; simp [decDigitsF] at hc
  | succ f ih =>
    intro n c hc
    simp only [decDigitsF] at hc
    by_cases h : n / 10 = 0
    · simp [h] at hc
      subst hc
      exact digitChar_mem_decDigitChars _ (Nat.mod_lt _ (by omega))
    · simp [h, List.mem_append] at hc
      rcases hc with hc | hc
      · exact ih _ c hc
      · subst hc
        exact digitChar_mem_decDigitChars _ (Nat.mod_lt _ (by omega))

theorem decDigitsF_ne_nil (f n : Nat) (hf : 0 < f) : decDigitsF f n ≠ [] := by
  match f, hf with
  | f + 1, _ =>
    simp only [decDigitsF]
    by_cases h : n / 10 = 0 <;> simp [h]

theorem digitChar_val : ∀ m < 10, (Nat.digitChar m).toNat - 48 = m := by
  decide

theorem decDigitsF_foldl (f : Nat) : ∀ (n : Nat), n < 10 ^ f → ∀ (acc : Nat),
    (decDigitsF f n).foldl (fun a c => 10 * a + (c.toNat - 48)) acc =
      acc * 10 ^ (decDigitsF f n).length + n := by
  induction f with
  | zero =>
    intro n hn acc
    have hn0 : n = 0 := by omega
    subst hn0
    simp [decDigitsF]
  | succ f ih =>
    intro n hn acc
    simp only [decDigitsF]
    by_cases h : n / 10 = 0
    · have hn10 : n < 10 := by omega
      rw [if_pos h]
      have hmodn : n % 10 = n := Nat.mod_eq_of_lt hn10
      simp only [List.foldl, hmodn, digitChar_val n hn10, List.length_singleton, pow_one]
      omega
    · have hdiv : n / 10 < 10 ^ f := by
        have h1 : n < 10 ^ (f + 1) := hn
        have h2 : 10 ^ (f + 1) = 10 ^ f * 10 := by ring
        omega
      have hmod : n % 10 < 10 := Nat.mod_lt _ (by omega)
      rw [if_neg h, List.foldl_append, ih (n / 10) hdiv acc]
      simp only [List.foldl, digitChar_val (n % 10) hmod, List.length_append,
        List.length_singleton]
      have hsplit : 10 * (n / 10) + n % 10 = n := Nat.div_add_mod n 10
      rw [Nat.pow_succ]
      have hcomm : acc * (10 ^ (decDigitsF f (n / 10)).length * 10) =
          10 * (acc * 10 ^ (decDigitsF f (n / 10)).length) := by ring
      omega

theorem repr_toList (n : Nat) : (Nat.repr n).toList = decDigitsF (n + 1) n := by
  show (Nat.toDigits 10 n).asString.toList = decDigitsF (n + 1) n
  rw [show Nat.toDigits 10 n = Nat.toDigitsCore 10 (n + 1) n [] from rfl,
    toDigitsCore_eq_decDigitsF]
  rw [List.append_nil]
  rfl

theorem decDigitChar_props : ∀ c ∈ decDigitChars,
    c.isDigit = true ∧ c.isWhitespace = false ∧ c ≠ '-' ∧ c ≠ '+' ∧ c ≠ '_' := by
  decide

theorem dropWhile_eq_self_of_all {p : Char → Bool} :
    ∀ (cs : List Char), (∀ c ∈ cs, p c = false) → cs.dropWhile p = cs := by
  intro cs h
  cases cs with
  | nil => rfl
  | cons a t =>
    simp [List.dropWhile, h a (List.mem_cons_self a t)]

theorem stripChars_eq_self_of_all (cs : List Char)
    (h : ∀ c ∈ cs, c.isWhitespace = false) : stripChars cs = cs := by
  unfold stripChars
  rw [dropWhile_eq_self_of_all cs h]
  rw [dropWhile_eq_self_of_all cs.reverse (fun c hc => h c (List.mem_reverse.1 hc))]
  exact List.reverse_reverse cs

theorem digitsGroupOk_of_all : ∀ (cs : List Char),
    (∀ c ∈ cs, c.isDigit = true ∧ c ≠ '_') → digitsGroupOk cs = true := by
  intro cs
  induction cs with
  | nil => intro _; rfl
  | cons a t ih =>
    intro h
    have ha := h a (List.mem_cons_self a t)
    unfold digitsGroupOk
    rw [if_neg ha.2, ha.1, ih (fun c hc => h c (List.mem_cons_of_mem a hc))]
    rfl

theorem pyDigits?_repr (n : Nat) : pyDigits? ((Nat.repr n).toList) = some n := by
  rw [repr_toList]
  have hmem := decDigitsF_mem (n + 1) n
  have hprops : ∀ c ∈ decDigitsF (n + 1) n,
      c.isDigit = true ∧ c.isWhitespace = false ∧ c ≠ '-' ∧ c ≠ '+' ∧ c ≠ '_' :=
    fun c hc => decDigitChar_props c (hmem c hc)
  have hok : pyDigitsOk (decDigitsF (n + 1) n) = true := by
    rcases hcs : decDigitsF (n + 1) n with _ | ⟨a, t⟩
    · exact absurd hcs (decDigitsF_ne_nil (n + 1) n (by omega))
    · have hall : ∀ c ∈ a :: t, c.isDigit = true ∧ c ≠ '_' := by
        intro c hc
        have := hprops c (hcs ▸ hc)
        exact ⟨this.1, this.2.2.2.2⟩
      simp only [pyDigitsOk]
      rw [(hall a (List.mem_cons_self a t)).1,
        digitsGroupOk_of_all t (fun c hc => hall c (List.mem_cons_of_mem a hc))]
      rfl
  have hfilter : (decDigitsF (n + 1) n).filter Char.isDigit = decDigitsF (n + 1) n := by
    rw [List.filter_eq_self]
    intro c hc
    exact (hprops c hc).1
  rw [pyDigits?, hok, if_pos rfl, hfilter]
  have hbound : n < 10 ^ (n + 1) := by
    calc n < 10 ^ n := Nat.lt_pow_self (by omega) n
    _ ≤ 10 ^ (n + 1) := Nat.pow_le_pow_right (by omega) (Nat.le_succ n)
  rw [digitsVal, decDigitsF_foldl (n + 1) n hbound 0]
  simp

theorem pyInt?_toString_nat (n : Nat) : pyInt? (toString n) = some (n : Int) := by
  show pyIntCore (stripChars (Nat.repr n).toList) = some (n : Int)
  rw [repr_toList]
  have hmem := decDigitsF_mem (n + 1) n
  have hprops : ∀ c ∈ decDigitsF (n + 1) n,
      c.isDigit = true ∧ c.isWhitespace = false ∧ c ≠ '-' ∧ c ≠ '+' ∧ c ≠ '_' :=
    fun c hc => decDigitChar_props c (hmem c hc)
  rw [stripChars_eq_self_of_all _ (fun c hc => (hprops c hc).2.1)]
  rcases hcs : decDigitsF (n + 1) n with _ | ⟨a, t⟩
  · exact absurd hcs (decDigitsF_ne_nil (n + 1) n (by omega))
  · have ha := hprops a (by rw [hcs]; exact List.mem_cons_self a t)
    simp only [pyIntCore, if_neg ha.2.2.1, if_neg ha.2.2.2.1]
    have := pyDigits?_repr n
    rw [repr_toList, hcs] at this
    rw [this]
    rfl

theorem pyInt?_toString_int (i : Int) : pyInt? (toString i) = some i := by
  cases i with
  | ofNat m => exact pyInt?_toString_nat m
  | negSucc m =>
    show pyIntCore (stripChars ("-" ++ Nat.repr (m + 1)).toList) = some (Int.negSucc m)
    have htl : ("-" ++ Nat.repr (m + 1)).toList = '-' :: (Nat.repr (m + 1)).toList := by
      show ("-" ++ Nat.repr (m + 1)).data = '-' :: (Nat.repr (m + 1)).data
      rw [String.data_append]
      rfl
    rw [htl, repr_toList]
    have hmem := decDigitsF_mem (m + 2) (m + 1)
    have hprops : ∀ c ∈ decDigitsF (m + 2) (m + 1),
        c.isDigit = true ∧ c.isWhitespace = false ∧ c ≠ '-' ∧ c ≠ '+' ∧ c ≠ '_' :=
      fun c hc => decDigitChar_props c (hmem c hc)
    have hall : ∀ c ∈ '-' :: decDigitsF (m + 2) (m + 1), c.isWhitespace = false := by
      intro c hc
      rcases List.mem_cons.1 hc with rfl | hc
      · rfl
      · exact (hprops c hc).2.1
    rw [stripChars_eq_self_of_all _ hall]
    simp only [pyIntCore, if_pos rfl]
    have := pyDigits?_repr (m + 1)
    rw [repr_toList] at this
    rw [this]
    show some (-(((m + 1 : Nat) : Int))) = some (Int.negSucc m)
    congr 1

/-! ### JSON documents and the canonical serialization used for hashing

compute_unique_hash in src/shared/features/semantic_reducer/models.py
canonicalizes the payload with json.dumps(payload, sort_keys=True,
separators=(",", ":")).  Json below models the Python values that occur in
payloads; jsonDumps models that canonical dump: object keys sorted, no
whitespace, strings escaped as json.dumps escapes them.  (ensure_ascii
escaping of characters above 0x7e is not modelled; payloads in the pipeline
are produced by pydantic model_dump and the claims never depend on it.) -/

inductive Json where
  | null
  | bool (b : Bool)
  | num (n : Int)
  | str (s : String)
  | arr (xs : List Json)
  | obj (kvs : List (String × Json))

/-- Lower-case hex digit character for n < 16 (Nat.digitChar yields exactly
the lower-case hex digits on that range). -/
def hexDigit (n : Nat) : String :=
  String.singleton (Nat.digitChar n)

/-- How json.dumps escapes one character inside a string literal. -/
def jsonEscapeChar (c : Char) : String :=
  if c = '"' then "\\\""
  else if c = '\\' then "\\\\"
  else if c = '\n' then "\\n"
  else if c = '\r' then "\\r"
  else if c = '\t' then "\\t"
  else if c = '\x08' then "\\b"
  else if c = '\x0c' then "\\f"
  else if c.toNat < 32 then "\\u00" ++ hexDigit (c.toNat / 16) ++ hexDigit (c.toNat % 16)
  else String.singleton c

/-- A JSON string literal as json.dumps renders it. -/
def jsonQuote (s : String) : String :=
  "\"" ++ String.join (s.toList.map jsonEscapeChar) ++ "\""

/-- sort_keys=True: the encoder serializes sorted(dict.items()).  Keys of a
Python dict are distinct, so the comparison never reaches the values and
sorting the pairs by key is the faithful embedding. -/
def sortKeys (kvs : List (String × Json)) : List (String × Json) :=
  kvs.mergeSort (fun a b => decide (a.1 ≤ b.1))

/-- json.dumps(v, sort_keys=True, separators=(",", ":")). -/
def jsonDumps : Json → String
  | .null => "null"
  | .bool true => "true"
  | .bool false => "false"
  | .num n => toString n
  | .str s => jsonQuote s
  | .arr xs => "[" ++ String.intercalate "," (xs.attach.map (fun x => jsonDumps x.1)) ++ "]"
  | .obj kvs => "\x7b" ++ String.intercalate ","
      ((sortKeys kvs).attach.map
        (fun kv => jsonQuote kv.1.1 ++ ":" ++ jsonDumps kv.1.2)) ++ "\x7d"
decreasing_by
  · have h1 : sizeOf x.1 < sizeOf xs := List.sizeOf_lt_of_mem x.2
    have h2 : sizeOf (Json.arr xs) = 1 + sizeOf xs := by simp
    omega
  · have hmem : kv.1 ∈ kvs := by
      have := kv.2
      unfold sortKeys at this
      exact (List.mem_mergeSort).1 this
    have h1 : sizeOf kv.1 < sizeOf kvs := List.sizeOf_lt_of_mem hmem
    have h2 : sizeOf kv.1.2 < sizeOf kv.1 := by
      cases kv.1 with
      | mk a b => simp
    have h3 : sizeOf (Json.obj kvs) = 1 + sizeOf kvs := by simp
    omega

/-- Embedding of compute_unique_hash
(src/shared/features/semantic_reducer/models.py).  H stands for the hex
digest of hashlib.sha256 on a string; event_type is the canonical string of
the event type (the function receives the enum value, a str).  The ids are
sorted ascending, joined by commas, the payload dict is canonically dumped
and hashed, and the four components are joined with pipes and hashed. -/
def compute_unique_hash (H : String → String) (event_type : String)
    (workspace_id : Int) (raw_event_ids : List Int)
    (payload : List (String × Json)) : String :=
  let sorted_ids := raw_event_ids.mergeSort (fun a b => decide (a ≤ b))
  let ids_str := String.intercalate "," (sorted_ids.map toString)
  let payload_json := jsonDumps (Json.obj payload)
  let payload_hash := H payload_json
  H (event_type ++ "|" ++ toString workspace_id ++ "|" ++ ids_str ++ "|" ++ payload_hash)

/-! Sorting facts shared by the hash theorems and the capture theorems. -/

theorem mergeSort_int_sorted (l : List Int) :
    (l.mergeSort (fun a b => decide (a ≤ b))).Sorted (· ≤ ·) := by
  have := @List.sorted_mergeSort Int (fun a b => decide (a ≤ b))
    (fun a b c h1 h2 => by simp at *; omega)
    (fun a b => by simp; omega) l
  refine List.Pairwise.imp ?_ this
  intro a b hab
  simpa using hab

theorem mergeSort_int_eq_of_perm (l l' : List Int) (h : l.Perm l') :
    l.mergeSort (fun a b => decide (a ≤ b)) = l'.mergeSort (fun a b => decide (a ≤ b)) := by
  refine List.eq_of_perm_of_sorted (r := fun a b : Int => a ≤ b) ?_ ?_ ?_
  · exact ((List.mergeSort_perm l _).trans h).trans (List.mergeSort_perm l' _).symm
  · exact mergeSort_int_sorted l
  · exact mergeSort_int_sorted l'

theorem sortKeys_sorted (kvs : List (String × Json)) :
    (sortKeys kvs).Pairwise (fun a b => a.1 ≤ b.1) := by
  have := @List.sorted_mergeSort (String × Json) (fun a b => decide (a.1 ≤ b.1))
    (fun a b c h1 h2 => by
      simp at *
      exact le_trans h1 h2)
    (fun a b => by
      rcases le_total a.1 b.1 with h | h <;> simp [h]) kvs
  refine List.Pairwise.imp ?_ this
  intro a b hab
  simpa using hab

theorem sortKeys_eq_of_perm (kvs1 kvs2 : List (String × Json))
    (hperm : kvs1.Perm kvs2) (hnd : (kvs1.map Prod.fst).Nodup) :
    sortKeys kvs1 = sortKeys kvs2 := by
  haveI : IsAntisymm (String × Json) (fun a b => a.1 < b.1) := by
    constructor
    intro a b hab hba
    exact absurd (lt_trans hab hba) (lt_irrefl _)
  have hnd2 : (kvs2.map Prod.fst).Nodup := ((hperm.map Prod.fst).nodup_iff).mp hnd
  have key : ∀ (l l' : List (String × Json)), l.Perm l' → (l.map Prod.fst).Nodup →
      (sortKeys l).Pairwise (fun a b => a.1 < b.1) := by
    intro l l' hp hn
    have hs := sortKeys_sorted l
    have hnds : ((sortKeys l).map Prod.fst).Nodup := by
      have : (sortKeys l).Perm l := List.mergeSort_perm l _
      exact ((this.map Prod.fst).nodup_iff).mpr hn
    have hne : (sortKeys l).Pairwise (fun a b => a.1 ≠ b.1) :=
      List.Pairwise.of_map Prod.fst (fun a b hab => hab) hnds
    exact (hs.and hne).imp (fun hab => lt_of_le_of_ne hab.1 hab.2)
  refine List.eq_of_perm_of_sorted (r := fun a b : String × Json => a.1 < b.1) ?_ ?_ ?_
  · exact ((List.mergeSort_perm kvs1 _).trans hperm).trans (List.mergeSort_perm kvs2 _).symm
  · exact key kvs1 kvs2 hperm hnd
  · exact key kvs2 kvs1 hperm.symm hnd2

/-! ### difflib, as used by NoteVersionReducer._compute_diff

_compute_diff (src/shared/features/semantic_reducer/note_versions/reducer.py)
splits both texts with str.splitlines(keepends=True), runs
difflib.unified_diff(prior, current, fromfile="previous", tofile="current",
lineterm="", n=3) and joins the produced lines with "".  The port below
follows CPython difflib.SequenceMatcher with isjunk=None: b2j with the
autojunk popularity filter, find_longest_match without the junk extension
loops (bjunk is empty when isjunk is None), the queue-based
get_matching_blocks, get_opcodes, get_grouped_opcodes and unified_diff. -/

/-- str.splitlines(keepends=True) worker over the characters, accumulating
the current line in reverse.  (Python also breaks on a few rare control and
unicode separators, which never occur here and are not modelled.) -/
def splitlinesGo (cur : List Char) : List Char → List (List Char)
  | [] => if cur = [] then [] else [cur.reverse]
  | '\r' :: '\n' :: rest => (cur.reverse ++ ['\r', '\n']) :: splitlinesGo [] rest
  | '\r' :: rest => (cur.reverse ++ ['\r']) :: splitlinesGo [] rest
  | '\n' :: rest => (cur.reverse ++ ['\n']) :: splitlinesGo [] rest
  | c :: rest => splitlinesGo (c :: cur) rest

/-- str.splitlines(keepends=True). -/
def splitlinesKeepends (s : String) : List String :=
  (splitlinesGo [] s.toList).map List.asString

/-- SequenceMatcher.b2j: for an element x of b, the ascending list of indices
of b at which x occurs. -/
def b2j (b : List String) (x : String) : List Nat :=
  (List.range b.length).filter (fun j => b.getD j "" == x)

/-- The autojunk rule of SequenceMatcher.__chain_b: when b has at least 200
elements, elements occurring in more than one percent (plus one) of the
positions are dropped from b2j. -/
def b2jAuto (b : List String) (x : String) : List Nat :=
  if b.length ≥ 200 && decide (b.length / 100 + 1 < (b2j b x).length) then []
  else b2j b x

/-- Lookup in the j2len association list of find_longest_match, defaulting
to 0 like j2len.get(j - 1, 0). -/
def lookupD (m : List (Nat × Nat)) (k : Nat) : Nat :=
  match m.find? (fun p => p.1 == k) with
  | some p => p.2
  | none => 0

/-- Inner loop of find_longest_match over the index list b2j[a[i]]: continue
below blo, break at bhi, otherwise extend the run ending at j and track the
best match. -/
def flmInner (j2len : List (Nat × Nat)) (blo bhi i : Nat) :
    List Nat → List (Nat × Nat) → Nat × Nat × Nat → List (Nat × Nat) × (Nat × Nat × Nat)
  | [], newj2len, best => (newj2len, best)
  | j :: js, newj2len, best =>
    if j < blo then flmInner j2len blo bhi i js newj2len best
    else if bhi ≤ j then (newj2len, best)
    else
      let k := lookupD j2len (j - 1) + 1
      let best2 := if best.2.2 < k then (i + 1 - k, j + 1 - k, k) else best
      flmInner j2len blo bhi i js ((j, k) :: newj2len) best2

/-- First post-loop of find_longest_match: extend the match towards the
front while the preceding elements are equal (with isjunk=None there are no
junk elements, so the junk variants of this loop never move). -/
def extendPrev (a b : List String) (alo blo : Nat) : Nat → Nat → Nat → Nat × Nat × Nat
  | besti, bestj, bestsize =>
    if h : alo < besti ∧ blo < bestj ∧ a.getD (besti - 1) "" = b.getD (bestj - 1) "" then
      extendPrev a b alo blo (besti - 1) (bestj - 1) (bestsize + 1)
    else (besti, bestj, bestsize)
termination_by besti => besti
decreasing_by omega

/-- Second post-loop of find_longest_match: extend the match towards the
back while the following elements are equal. -/
def extendNext (a b : List String) (ahi bhi besti bestj : Nat) : Nat → Nat
  | bestsize =>
    if h : besti + bestsize < ahi ∧ bestj + bestsize < bhi ∧
        a.getD (besti + bestsize) "" = b.getD (bestj + bestsize) "" then
      extendNext a b ahi bhi besti bestj (bestsize + 1)
    else bestsize
termination_by bestsize => ahi - (besti + bestsize)
decreasing_by omega

/-- SequenceMatcher.find_longest_match(alo, ahi, blo, bhi) with isjunk=None. -/
def find_longest_match (bj : String → List Nat) (a b : List String)
    (alo ahi blo bhi : Nat) : Nat × Nat × Nat :=
  let st := (List.range' alo (ahi - alo)).foldl
    (fun (st : List (Nat × Nat) × (Nat × Nat × Nat)) i =>
      flmInner st.1 blo bhi i (bj (a.getD i "")) [] st.2)
    ([], (alo, blo, 0))
  let p := extendPrev a b alo blo st.2.1 st.2.2.1 st.2.2.2
  (p.1, p.2.1, extendNext a b ahi bhi p.1 p.2.1 p.2.2)

/-- Queue loop of get_matching_blocks.  queue.pop() takes the last element;
a found match of size k splits the range in two.  The fuel is decremented
once per iteration; get_matching_blocks passes la + lb + 1, which bounds the
number of iterations because every popped range either disappears or is
replaced by subranges whose total length is smaller by at least two. -/
def gmbGo (a b : List String) (bj : String → List Nat) :
    Nat → List (Nat × Nat × Nat × Nat) → List (Nat × Nat × Nat) → List (Nat × Nat × Nat)
  | 0, _, acc => acc
  | fuel + 1, queue, acc =>
    match queue.getLast? with
    | none => acc
    | some (alo, ahi, blo, bhi) =>
      let rest := queue.dropLast
      let m := find_longest_match bj a b alo ahi blo bhi
      let i := m.1
      let j := m.2.1
      let k := m.2.2
      if k = 0 then gmbGo a b bj fuel rest acc
      else
        let q2 := if alo < i ∧ blo < j then rest ++ [(alo, i, blo, j)] else rest
        let q3 := if i + k < ahi ∧ j + k < bhi then q2 ++ [(i + k, ahi, j + k, bhi)] else q2
        gmbGo a b bj fuel q3 (acc ++ [(i, j, k)])

/-- Lexicographic order on triples, as Python sorts tuples. -/
def tripleLE (x y : Nat × Nat × Nat) : Bool :=
  decide (x.1 < y.1 ∨ (x.1 = y.1 ∧ (x.2.1 < y.2.1 ∨ (x.2.1 = y.2.1 ∧ x.2.2 ≤ y.2.2))))

/-- Adjacent-block merging pass at the end of get_matching_blocks. -/
def collapseBlocks (blocks : List (Nat × Nat × Nat)) : List (Nat × Nat × Nat) :=
  let st := blocks.foldl
    (fun (st : Nat × Nat × Nat × List (Nat × Nat × Nat)) blk =>
      let i1 := st.1
      let j1 := st.2.1
      let k1 := st.2.2.1
      let acc := st.2.2.2
      if i1 + k1 = blk.1 ∧ j1 + k1 = blk.2.1 then (i1, j1, k1 + blk.2.2, acc)
      else if k1 ≠ 0 then (blk.1, blk.2.1, blk.2.2, acc ++ [(i1, j1, k1)])
      else (blk.1, blk.2.1, blk.2.2, acc))
    (0, 0, 0, [])
  if st.2.2.1 ≠ 0 then st.2.2.2 ++ [(st.1, st.2.1, st.2.2.1)] else st.2.2.2

/-- SequenceMatcher.get_matching_blocks. -/
def get_matching_blocks (a b : List String) : List (Nat × Nat × Nat) :=
  let blocks := gmbGo a b (b2jAuto b) (a.length + b.length + 1)
    [(0, a.length, 0, b.length)] []
  collapseBlocks (blocks.mergeSort tripleLE) ++ [(a.length, b.length, 0)]

/-- An opcode (tag, i1, i2, j1, j2), the tag being one of the four strings
replace, delete, insert, equal. -/
abbrev Opcode : Type := String × Nat × Nat × Nat × Nat

/-- SequenceMatcher.get_opcodes. -/
def get_opcodes (a b : List String) : List Opcode :=
  let st := (get_matching_blocks a b).foldl
    (fun (st : Nat × Nat × List Opcode) blk =>
      let i := st.1
      let j := st.2.1
      let answer := st.2.2
      let ai := blk.1
      let bj2 := blk.2.1
      let size := blk.2.2
      let tag : String :=
        if i < ai ∧ j < bj2 then "replace"
        else if i < ai then "delete"
        else if j < bj2 then "insert"
        else ""
      let answer := if tag ≠ "" then answer ++ [(tag, i, ai, j, bj2)] else answer
      let answer :=
        if size ≠ 0 then answer ++ [(("equal" : String), ai, ai + size, bj2, bj2 + size)]
        else answer
      (ai + size, bj2 + size, answer))
    (0, 0, [])
  st.2.2

/-- get_grouped_opcodes clips a leading equal opcode to n context lines. -/
def clipHead (n : Nat) : List Opcode → List Opcode
  | [] => []
  | (tag, i1, i2, j1, j2) :: rest =>
    if tag = "equal" then (tag, max i1 (i2 - n), i2, max j1 (j2 - n), j2) :: rest
    else (tag, i1, i2, j1, j2) :: rest

/-- get_grouped_opcodes clips a trailing equal opcode to n context lines. -/
def clipLastRev (n : Nat) : List Opcode → List Opcode
  | [] => []
  | (tag, i1, i2, j1, j2) :: rest =>
    if tag = "equal" then (tag, i1, min i2 (i1 + n), j1, min j2 (j1 + n)) :: rest
    else (tag, i1, i2, j1, j2) :: rest

/-- SequenceMatcher.get_grouped_opcodes(n), materialized as the list of
yielded groups. -/
def get_grouped_opcodes (a b : List String) (n : Nat) : List (List Opcode) :=
  let codes := get_opcodes a b
  let codes := if codes.isEmpty then [(("equal" : String), 0, 1, 0, 1)] else codes
  let codes := clipHead n codes
  let codes := (clipLastRev n codes.reverse).reverse
  let nn := n + n
  let st := codes.foldl
    (fun (st : List Opcode × List (List Opcode)) c =>
      let group := st.1
      let groups := st.2
      let tag := c.1
      let i1 := c.2.1
      let i2 := c.2.2.1
      let j1 := c.2.2.2.1
      let j2 := c.2.2.2.2
      if tag = "equal" ∧ nn < i2 - i1 then
        ([((tag : String), max i1 (i2 - n), i2, max j1 (j2 - n), j2)],
          groups ++ [group ++ [((tag : String), i1, min i2 (i1 + n), j1, min j2 (j1 + n))]])
      else (group ++ [c], groups))
    ([], [])
  let group := st.1
  let groups := st.2
  if group ≠ [] ∧ ¬(group.length = 1 ∧ (group.headD (("equal" : String), 0, 0, 0, 0)).1 = "equal")
  then groups ++ [group] else groups

/-- difflib._format_range_unified. -/
def format_range_unified (start stop : Nat) : String :=
  let beginning := start + 1
  let length := stop - start
  if length = 1 then toString beginning
  else if length = 0 then toString start ++ ",0"
  else toString beginning ++ "," ++ toString length

/-- The Python slice l[i:j] for 0 <= i <= j. -/
def sliceL (l : List String) (i j : Nat) : List String :=
  (l.drop i).take (j - i)

/-- difflib.unified_diff(a, b, fromfile, tofile, lineterm=lineterm, n=n),
materialized as the list of yielded lines.  The file headers carry no dates
because _compute_diff passes none. -/
def unified_diff (a b : List String) (fromfile tofile lineterm : String) (n : Nat) :
    List String :=
  let groups := get_grouped_opcodes a b n
  if groups.isEmpty then []
  else
    ["--- " ++ fromfile ++ lineterm, "+++ " ++ tofile ++ lineterm] ++
    (groups.map (fun group =>
      let first := group.headD (("equal" : String), 0, 0, 0, 0)
      let last := group.getLastD (("equal" : String), 0, 0, 0, 0)
      let file1 := format_range_unified first.2.1 last.2.2.1
      let file2 := format_range_unified first.2.2.2.1 last.2.2.2.2
      ["@@ -" ++ file1 ++ " +" ++ file2 ++ " @@" ++ lineterm] ++
      (group.map (fun c =>
        let tag := c.1
        let i1 := c.2.1
        let i2 := c.2.2.1
        let j1 := c.2.2.2.1
        let j2 := c.2.2.2.2
        if tag = "equal" then (sliceL a i1 i2).map (fun line => " " ++ line)
        else
          (if tag = "replace" ∨ tag = "delete" then
            (sliceL a i1 i2).map (fun line => "-" ++ line) else []) ++
          (if tag = "replace" ∨ tag = "insert" then
            (sliceL b j1 j2).map (fun line => "+" ++ line) else []))).flatten)).flatten

/-- NoteVersionReducer._compute_diff: unified diff of the two texts with
three lines of context, labels previous and current, lineterm "", joined
with the empty string. -/
def compute_diff (prior_text current_text : String) : String :=
  let prior_lines := splitlinesKeepends prior_text
  let current_lines := splitlinesKeepends current_text
  String.join (unified_diff prior_lines current_lines "previous" "current" "" 3)

/-! ### Data model

The rows of the four tables involved, as plain records
(src/shared/features/event_sourcing/models.py and
src/shared/features/semantic_reducer/models.py).  Timestamps are abstract
integer ticks; the float field similarity is carried opaquely (never
computed with) and is modelled as an integer. -/

/-- A row of public.note_versions (model NoteVersion). -/
structure NoteVersion where
  id : Int
  note_id : Int
  version : Int
  created_at : Int
  title : Option String
  text : String
  workspace_id : Int
  note_folder_id : Option Int
  similarity : Option Int
deriving DecidableEq

/-- A row of cognition.raw_events (model RawEvent).  use_enum_values makes
the pydantic models carry the enum value, so event_type is a String here. -/
structure RawEvent where
  id : Int
  occurred_at : Int
  ingested_at : Option Int
  source_id : Int
  workspace_id : Int
  event_type : String
  event_version : Int
  payload : Json
  source_event_id : String

/-- A row of cognition.raw_event_sources (model RawEventSource), the
checkpoint row.  last_event_id is a string by design. -/
structure RawEventSource where
  id : Int
  source_type : String
  source_system : String
  last_event_id : String
  last_event_at : Option Int
  updated_at : Option Int
deriving DecidableEq

/-- Model RawEventCreate, specialized to the one payload type in use
(RawEventCreate[NoteVersion] in process_note_versions). -/
structure RawEventCreate where
  source_id : Int
  workspace_id : Int
  event_type : String
  event_version : Int
  payload : NoteVersion
  occurred_at : Int
  source_event_id : String

/-- Model SemanticEventCreate.  The payload is the enriched dict. -/
structure SemanticEventCreate where
  event_type : String
  workspace_id : Int
  occurred_at : Int
  reducer_version : String
  raw_event_ids : List Int
  payload : List (String × Json)
  unique_hash : String

/-- A row of cognition.semantic_events.  created_at is filled by a column
default and read by no claim, so it is omitted. -/
structure SemanticEventRow where
  id : Int
  event_type : String
  workspace_id : Int
  occurred_at : Int
  reducer_version : String
  raw_event_ids : List Int
  payload : List (String × Json)
  unique_hash : String

/-- The database state the pipeline touches: the domain source table, the
checkpoint table, the ledger and the semantic-event store, plus the next
values of the two id sequences. -/
structure DB where
  note_versions : List NoteVersion
  raw_event_sources : List RawEventSource
  raw_events : List RawEvent
  semantic_events : List SemanticEventRow
  next_raw_event_id : Int
  next_semantic_event_id : Int

/-- Stands for the ISO rendering pydantic gives a datetime in
model_dump(mode="json"); with ticks as integers, toString is an injective
rendering and its exact format is never inspected. -/
def dtRepr (t : Int) : String := toString t

/-- Inverse of dtRepr, used when a NoteVersion is re-validated from a stored
payload. -/
def dtParse? (s : String) : Option Int := pyInt? s

def optStrJson : Option String → Json
  | none => Json.null
  | some s => Json.str s

def optIntJson : Option Int → Json
  | none => Json.null
  | some n => Json.num n

/-- NoteVersion.model_dump(mode="json"): the dict of the nine fields, in
declaration order. -/
def noteVersionToJson (nv : NoteVersion) : Json :=
  Json.obj [("id", Json.num nv.id), ("note_id", Json.num nv.note_id),
    ("version", Json.num nv.version), ("created_at", Json.str (dtRepr nv.created_at)),
    ("title", optStrJson nv.title), ("text", Json.str nv.text),
    ("workspace_id", Json.num nv.workspace_id),
    ("note_folder_id", optIntJson nv.note_folder_id),
    ("similarity", optIntJson nv.similarity)]

/-- Lookup of a key in a JSON object body, first match as in a dict. -/
def jsonLookup (kvs : List (String × Json)) (k : String) : Option Json :=
  (kvs.find? (fun p => p.1 == k)).map Prod.snd

/-- NoteVersion(**payload): pydantic validation of a stored payload back
into a NoteVersion.  none models a ValidationError.  (The numeric-string
coercions pydantic would additionally accept never occur in stored
payloads.) -/
def jsonToNoteVersion? (j : Json) : Option NoteVersion :=
  match j with
  | Json.obj kvs =>
    match jsonLookup kvs "id", jsonLookup kvs "note_id", jsonLookup kvs "version",
        jsonLookup kvs "created_at", jsonLookup kvs "title", jsonLookup kvs "text",
        jsonLookup kvs "workspace_id", jsonLookup kvs "note_folder_id",
        jsonLookup kvs "similarity" with
    | some (Json.num id), some (Json.num note_id), some (Json.num version),
        some (Json.str created_at_s), some title_j, some (Json.str text),
        some (Json.num workspace_id), some note_folder_j, some similarity_j =>
      match dtParse? created_at_s with
      | none => none
      | some created_at =>
        match title_j, note_folder_j, similarity_j with
        | Json.null, Json.null, Json.null =>
          some ⟨id, note_id, version, created_at, none, text, workspace_id, none, none⟩
        | Json.null, Json.null, Json.num sim =>
          some ⟨id, note_id, version, created_at, none, text, workspace_id, none, some sim⟩
        | Json.null, Json.num nf, Json.null =>
          some ⟨id, note_id, version, created_at, none, text, workspace_id, some nf, none⟩
        | Json.null, Json.num nf, Json.num sim =>
          some ⟨id, note_id, version, created_at, none, text, workspace_id, some nf, some sim⟩
        | Json.str ti, Json.null, Json.null =>
          some ⟨id, note_id, version, created_at, some ti, text, workspace_id, none, none⟩
        | Json.str ti, Json.null, Json.num sim =>
          some ⟨id, note_id, version, created_at, some ti, text, workspace_id, none, some sim⟩
        | Json.str ti, Json.num nf, Json.null =>
          some ⟨id, note_id, version, created_at, some ti, text, workspace_id, some nf, none⟩
        | Json.str ti, Json.num nf, Json.num sim =>
          some ⟨id, note_id, version, created_at, some ti, text, workspace_id, some nf, some sim⟩
        | _, _, _ => none
    | _, _, _, _, _, _, _, _, _ => none
  | _ => none

/-- Model EnrichedNoteVersionPayload: the NoteVersion fields plus the diff
string. -/
structure EnrichedNoteVersionPayload where
  id : Int
  note_id : Int
  version : Int
  created_at : Int
  title : Option String
  text : String
  workspace_id : Int
  note_folder_id : Option Int
  similarity : Option Int
  diff : String

/-- EnrichedNoteVersionPayload.model_dump(mode="json") as a dict body. -/
def enrichedToKVs (e : EnrichedNoteVersionPayload) : List (String × Json) :=
  [("id", Json.num e.id), ("note_id", Json.num e.note_id),
    ("version", Json.num e.version), ("created_at", Json.str (dtRepr e.created_at)),
    ("title", optStrJson e.title), ("text", Json.str e.text),
    ("workspace_id", Json.num e.workspace_id),
    ("note_folder_id", optIntJson e.note_folder_id),
    ("similarity", optIntJson e.similarity), ("diff", Json.str e.diff)]

/-! ### Repositories (src/shared/features/event_sourcing/repository.py and
src/shared/features/semantic_reducer/repository.py and
src/shared/features/semantic_reducer/note_versions/repository.py).

Each SQL statement becomes a pure function of the DB state.  A SELECT with
ORDER BY sorts the (unordered) table list; fetchone takes the first
match. -/

/-- SELECT from cognition.raw_event_sources WHERE source_type and
source_system match; fetchone. -/
def get_raw_event_source (db : DB) (source_type source_system : String) :
    Option RawEventSource :=
  db.raw_event_sources.find?
    (fun s => s.source_type == source_type && s.source_system == source_system)

/-- SELECT from public.note_versions WHERE id > last_event_id ORDER BY id
ASC. -/
def get_note_versions_since (db : DB) (last_event_id : Int) : List NoteVersion :=
  (db.note_versions.filter (fun nv => decide (last_event_id < nv.id))).mergeSort
    (fun x y => decide (x.id ≤ y.id))

/-- INSERT INTO cognition.raw_events ... ON CONFLICT (source_id,
source_event_id) DO NOTHING RETURNING id.  ingested_at is always inserted
NULL.  Returns none when the row already existed. -/
def create_raw_event (db : DB) (event : RawEventCreate) : Option Int × DB :=
  if db.raw_events.any
      (fun r => r.source_id == event.source_id && r.source_event_id == event.source_event_id)
  then (none, db)
  else
    let id := db.next_raw_event_id
    (some id,
      { db with
        raw_events := db.raw_events ++
          [{ id := id, occurred_at := event.occurred_at, ingested_at := none,
             source_id := event.source_id, workspace_id := event.workspace_id,
             event_type := event.event_type, event_version := event.event_version,
             payload := noteVersionToJson event.payload,
             source_event_id := event.source_event_id }],
        next_raw_event_id := id + 1 })

/-- UPDATE cognition.raw_event_sources SET last_event_id, last_event_at,
updated_at WHERE id = source_id.  now is the datetime.now() timestamp. -/
def update_raw_event_source_checkpoint (db : DB) (source_id : Int)
    (last_event_id : String) (last_event_at now : Int) : DB :=
  { db with
    raw_event_sources := db.raw_event_sources.map (fun s =>
      if s.id == source_id then
        { s with
          last_event_id := last_event_id,
          last_event_at := some last_event_at,
          updated_at := some now }
      else s) }

/-- Exceptions the services raise; validationError carries the offending
event_type string of a pydantic ValidationError. -/
inductive PyError where
  | runtimeError (msg : String)
  | valueError (msg : String)
  | validationError (value : String)
  | injectedFault
deriving DecidableEq

/-- The members of the EventType str-enum (enums.py): the single value
"note_version.created". -/
def EventType.members : List String := ["note_version.created"]

/-- Pydantic validation performed by RawEvent(**dict(result)) in
repository.py: the event_type field is declared as EventType, so any stored
string that is not a member of the enum raises a ValidationError. -/
def validateRawEvent? (r : RawEvent) : Except PyError RawEvent :=
  if EventType.members.contains r.event_type then Except.ok r
  else Except.error (PyError.validationError r.event_type)

/-- SELECT from cognition.raw_events WHERE id = raw_event_id; fetchone, then
RawEvent(**dict(result)), whose pydantic validation raises on an event_type
outside the EventType enum. -/
def get_raw_event_by_id (db : DB) (raw_event_id : Int) :
    Except PyError (Option RawEvent) :=
  match db.raw_events.find? (fun r => r.id == raw_event_id) with
  | none => Except.ok none
  | some r => (validateRawEvent? r).map some

/-- SELECT from public.note_versions WHERE note_id = note_id AND version <
current_version ORDER BY version DESC LIMIT 1. -/
def get_prior_note_version (db : DB) (note_id current_version : Int) :
    Option NoteVersion :=
  ((db.note_versions.filter
      (fun nv => nv.note_id == note_id && decide (nv.version < current_version))).mergeSort
    (fun x y => decide (y.version ≤ x.version))).head?

/-- INSERT INTO cognition.semantic_events ... ON CONFLICT (unique_hash) DO
NOTHING RETURNING id.  Returns none when a row with the hash already
existed. -/
def create_semantic_event (db : DB) (event : SemanticEventCreate) : Option Int × DB :=
  if db.semantic_events.any (fun r => r.unique_hash == event.unique_hash)
  then (none, db)
  else
    let id := db.next_semantic_event_id
    (some id,
      { db with
        semantic_events := db.semantic_events ++
          [{ id := id, event_type := event.event_type,
             workspace_id := event.workspace_id, occurred_at := event.occurred_at,
             reducer_version := event.reducer_version,
             raw_event_ids := event.raw_event_ids, payload := event.payload,
             unique_hash := event.unique_hash }],
        next_semantic_event_id := id + 1 })

/-- UPDATE cognition.raw_events SET ingested_at WHERE id = ANY(ids).  The
early return on an empty id list changes nothing. -/
def update_raw_events_ingested_at (db : DB) (raw_event_ids : List Int)
    (ingested_at : Int) : DB :=
  { db with
    raw_events := db.raw_events.map (fun r =>
      if raw_event_ids.contains r.id then { r with ingested_at := some ingested_at }
      else r) }

/-! ### Capture service (EventSourcingService.process_note_versions)

The whole call runs in one transaction; any exception rolls the transaction
back and re-raises.  The embedding returns the Except outcome together with
the committed state: on error the state is the original one.  To express the
forced-failure scenarios of the specification, an injectable fault names a
step that raises; noFault is the unmodified service. -/

/-- Injectable failure point inside the capture transaction. -/
inductive Fault where
  | noFault
  | failInsert (k : Nat)
  | failCheckpoint
deriving DecidableEq

/-- The per-row loop of process_note_versions: build a RawEventCreate for
each note version and insert it, collecting the ids actually inserted.
Raises at index k when the fault says so. -/
def insertLoop (fault : Fault) (source_id : Int) :
    List NoteVersion → Nat → DB → List Int → Except PyError (DB × List Int)
  | [], _, db, acc => Except.ok (db, acc)
  | nv :: rest, k, db, acc =>
    if fault = Fault.failInsert k then Except.error PyError.injectedFault
    else
      let event : RawEventCreate :=
        { source_id := source_id, workspace_id := nv.workspace_id,
          event_type := "note_version.created", event_version := 1,
          payload := nv, occurred_at := nv.created_at,
          source_event_id := toString nv.id }
      match create_raw_event db event with
      | (none, db2) => insertLoop fault source_id rest (k + 1) db2 acc
      | (some id, db2) => insertLoop fault source_id rest (k + 1) db2 (acc ++ [id])

/-- EventSourcingService.process_note_versions with a fault injection point.
Steps: read the checkpoint row (missing: RuntimeError), parse its
last_event_id with int() (ValueError on failure), query the new note
versions (empty: return [] with no writes), insert each, then write the
checkpoint from the last element of the ascending batch, and commit.  Any
error leaves the returned state equal to the input state (rollback). -/
def process_note_versions_f (fault : Fault) (now : Int) (db : DB) :
    Except PyError (List Int) × DB :=
  match get_raw_event_source db "cogno.note_versions" "cogno" with
  | none => (Except.error (PyError.runtimeError "Raw event source not found"), db)
  | some raw_event_source =>
    match pyInt? raw_event_source.last_event_id with
    | none => (Except.error (PyError.valueError "invalid literal for int"), db)
    | some last_event_id =>
      match (get_note_versions_since db last_event_id).getLast? with
      | none => (Except.ok [], db)
      | some last_note_version =>
        match insertLoop fault raw_event_source.id
            (get_note_versions_since db last_event_id) 0 db [] with
        | Except.error e => (Except.error e, db)
        | Except.ok (db2, newly_created_event_ids) =>
          if fault = Fault.failCheckpoint then (Except.error PyError.injectedFault, db)
          else
            (Except.ok newly_created_event_ids,
              update_raw_event_source_checkpoint db2 raw_event_source.id
                (toString last_note_version.id) last_note_version.created_at now)

/-- The capture service as deployed: no injected fault. -/
def process_note_versions (now : Int) (db : DB) : Except PyError (List Int) × DB :=
  process_note_versions_f Fault.noFault now db

/-! ### Semantic reducer service (SemanticReducerService.process_event and
NoteVersionReducer.reduce). -/

/-- NoteVersionReducer.reduce: validate the payload into a NoteVersion, look
up the stored immediately preceding version, diff, build the enriched
payload and the unique hash.  reducer_version is
NoteVersionReducerVersion.V1_0_0. -/
def NoteVersionReducer_reduce (H : String → String) (db : DB) (raw_event : RawEvent) :
    Except PyError SemanticEventCreate :=
  match jsonToNoteVersion? raw_event.payload with
  | none => Except.error (PyError.valueError "NoteVersion validation error")
  | some note_version =>
    let prior_version := get_prior_note_version db note_version.note_id note_version.version
    let diff :=
      match prior_version with
      | some pv => compute_diff pv.text note_version.text
      | none => ""
    let enriched : EnrichedNoteVersionPayload :=
      { id := note_version.id, note_id := note_version.note_id,
        version := note_version.version, created_at := note_version.created_at,
        title := note_version.title, text := note_version.text,
        workspace_id := note_version.workspace_id,
        note_folder_id := note_version.note_folder_id,
        similarity := note_version.similarity, diff := diff }
    let enriched_payload := enrichedToKVs enriched
    let raw_event_ids := [raw_event.id]
    let unique_hash := compute_unique_hash H raw_event.event_type raw_event.workspace_id
      raw_event_ids enriched_payload
    Except.ok
      { event_type := raw_event.event_type, workspace_id := raw_event.workspace_id,
        occurred_at := raw_event.occurred_at, reducer_version := "1.0.0",
        raw_event_ids := raw_event_ids, payload := enriched_payload,
        unique_hash := unique_hash }

/-- SemanticReducerService._process_event: dispatch on the event type.  The
registry built in the constructor maps exactly NOTE_VERSION_CREATED, so for
that type the lookup succeeds (the reducer-is-None branch is unreachable)
and every other type falls to the default case, which returns None. -/
def dispatch_event (H : String → String) (db : DB) (raw_event : RawEvent) :
    Except PyError (Option SemanticEventCreate) :=
  if raw_event.event_type = "note_version.created" then
    (NoteVersionReducer_reduce H db raw_event).map some
  else
    Except.ok none

/-- SemanticReducerService.process_event: fetch the raw event (missing id
raises ValueError; a stored event_type outside the EventType enum raises
ValidationError inside the fetch), dispatch; a None candidate commits with
no writes; otherwise insert the semantic event idempotently and stamp
ingested_at on the contributing raw events with now, in both the inserted
and the conflict branch, then commit.  Any error rolls back: the returned
state is the input state. -/
def process_event (H : String → String) (now : Int) (db : DB) (raw_event_id : Int) :
    Except PyError Unit × DB :=
  match get_raw_event_by_id db raw_event_id with
  | Except.error e => (Except.error e, db)
  | Except.ok none => (Except.error (PyError.valueError "Raw event not found"), db)
  | Except.ok (some raw_event) =>
    match dispatch_event H db raw_event with
    | Except.error e => (Except.error e, db)
    | Except.ok none => (Except.ok (), db)
    | Except.ok (some semantic_event_create) =>
      (Except.ok (),
        update_raw_events_ingested_at (create_semantic_event db semantic_event_create).2
          semantic_event_create.raw_event_ids now)

/-! ### Shared lemmas about the embedded operations -/

theorem find?_map_of_pred {α : Type} (p : α → Bool) (f : α → α) (l : List α)
    (h : ∀ x, p (f x) = p x) : (l.map f).find? p = (l.find? p).map f := by
  induction l with
  | nil => rfl
  | cons a t ih =>
    simp only [List.map_cons, List.find?_cons, h]
    cases hp : p a <;> simp [hp, ih]

/-- A validated fetch that returns a row also locates that row by the SQL
lookup underneath. -/
theorem get_raw_event_by_id_ok_some (db : DB) (i : Int) (r : RawEvent)
    (h : get_raw_event_by_id db i = Except.ok (some r)) :
    db.raw_events.find? (fun x => x.id == i) = some r := by
  unfold get_raw_event_by_id at h
  cases hf : db.raw_events.find? (fun x => x.id == i) with
  | none =>
    simp only [hf] at h
    exact Except.ok.inj h
  | some r0 =>
    simp only [hf] at h
    unfold validateRawEvent? at h
    split at h
    · have h0 : Except.ok (ε := PyError) (some r0) = Except.ok (some r) := h
      exact Except.ok.inj h0
    · exact Except.noConfusion
        (show Except.error (PyError.validationError r0.event_type) =
          Except.ok (some r) from h)

/-- Conversely, a located row whose event type is an EventType member
passes validation, so the fetch returns it. -/
theorem get_raw_event_by_id_of_find (db : DB) (i : Int) (r : RawEvent)
    (hf : db.raw_events.find? (fun x => x.id == i) = some r)
    (ht : EventType.members.contains r.event_type = true) :
    get_raw_event_by_id db i = Except.ok (some r) := by
  unfold get_raw_event_by_id
  simp only [hf]
  unfold validateRawEvent?
  rw [if_pos ht]
  rfl

/-- create_raw_event only writes to the ledger and its id sequence. -/
theorem create_raw_event_preserves (db : DB) (e : RawEventCreate) :
    (create_raw_event db e).2.note_versions = db.note_versions ∧
      (create_raw_event db e).2.raw_event_sources = db.raw_event_sources ∧
      (create_raw_event db e).2.semantic_events = db.semantic_events := by
  unfold create_raw_event
  by_cases hdup : db.raw_events.any
      (fun r => r.source_id == e.source_id && r.source_event_id == e.source_event_id)
  · rw [if_pos hdup]
    exact ⟨rfl, rfl, rfl⟩
  · rw [if_neg hdup]
    exact ⟨rfl, rfl, rfl⟩

/-- insertLoop only writes to the ledger and its id sequence. -/
theorem insertLoop_preserves (fault : Fault) (source_id : Int) :
    ∀ (nvs : List NoteVersion) (k : Nat) (db : DB) (acc : List Int) (db2 : DB)
      (ids : List Int), insertLoop fault source_id nvs k db acc = Except.ok (db2, ids) →
      db2.note_versions = db.note_versions ∧
      db2.raw_event_sources = db.raw_event_sources ∧
      db2.semantic_events = db.semantic_events := by
  intro nvs
  induction nvs with
  | nil =>
    intro k db acc db2 ids h
    simp only [insertLoop] at h
    cases h
    exact ⟨rfl, rfl, rfl⟩
  | cons nv rest ih =>
    intro k db acc db2 ids h
    simp only [insertLoop] at h
    by_cases hf : fault = Fault.failInsert k
    · rw [if_pos hf] at h; cases h
    · rw [if_neg hf] at h
      split at h
      · rename_i db1 heq
        have hp := create_raw_event_preserves db
          { source_id := source_id, workspace_id := nv.workspace_id,
            event_type := "note_version.created", event_version := 1,
            payload := nv, occurred_at := nv.created_at,
            source_event_id := toString nv.id }
        rw [heq] at hp
        have hr := ih (k + 1) db1 acc db2 ids h
        exact ⟨hr.1.trans hp.1, hr.2.1.trans hp.2.1, hr.2.2.trans hp.2.2⟩
      · rename_i id1 db1 heq
        have hp := create_raw_event_preserves db
          { source_id := source_id, workspace_id := nv.workspace_id,
            event_type := "note_version.created", event_version := 1,
            payload := nv, occurred_at := nv.created_at,
            source_event_id := toString nv.id }
        rw [heq] at hp
        have hr := ih (k + 1) db1 (acc ++ [id1]) db2 ids h
        exact ⟨hr.1.trans hp.1, hr.2.1.trans hp.2.1, hr.2.2.trans hp.2.2⟩

/-- With no injected fault the insert loop never raises. -/
theorem insertLoop_noFault_ok (source_id : Int) :
    ∀ (nvs : List NoteVersion) (k : Nat) (db : DB) (acc : List Int),
      ∃ db2 ids, insertLoop Fault.noFault source_id nvs k db acc = Except.ok (db2, ids) := by
  intro nvs
  induction nvs with
  | nil =>
    intro k db acc
    exact ⟨db, acc, rfl⟩
  | cons nv rest ih =>
    intro k db acc
    simp only [insertLoop]
    rw [if_neg (fun h => Fault.noConfusion h)]
    rcases hcre : create_raw_event db
      { source_id := source_id, workspace_id := nv.workspace_id,
        event_type := "note_version.created", event_version := 1,
        payload := nv, occurred_at := nv.created_at,
        source_event_id := toString nv.id } with ⟨oid, db1⟩
    cases oid with
    | none => exact ih (k + 1) db1 acc
    | some id1 => exact ih (k + 1) db1 (acc ++ [id1])

/-- The batch returned by the since-query is sorted ascending by id. -/
theorem get_note_versions_since_sorted (db : DB) (last_event_id : Int) :
    (get_note_versions_since db last_event_id).Sorted (fun a b => a.id ≤ b.id) := by
  have := @List.sorted_mergeSort NoteVersion (fun x y => decide (x.id ≤ y.id))
    (fun a b c h1 h2 => by simp at *; omega)
    (fun a b => by simp; omega)
    (db.note_versions.filter (fun nv => decide (last_event_id < nv.id)))
  refine List.Pairwise.imp ?_ this
  intro a b hab
  simpa using hab

/-- Membership in the since-query batch. -/
theorem mem_get_note_versions_since (db : DB) (last_event_id : Int) (nv : NoteVersion) :
    nv ∈ get_note_versions_since db last_event_id ↔
      nv ∈ db.note_versions ∧ last_event_id < nv.id := by
  unfold get_note_versions_since
  rw [List.mem_mergeSort, List.mem_filter]
  simp

/-- In a list sorted by an integer key, every element's key is at most the
key of the last element. -/
theorem le_getLast_of_sorted {α : Type} (f : α → Int) :
    ∀ (l : List α), l.Sorted (fun a b => f a ≤ f b) →
      ∀ x ∈ l, ∀ m, l.getLast? = some m → f x ≤ f m := by
  intro l
  induction l with
  | nil => intro _ x hx; simp at hx
  | cons a t ih =>
    intro hs x hx m hm
    match t, hm with
    | [], hm =>
      simp at hm hx
      subst hm; subst hx; exact le_refl _
    | b :: t2, hm =>
      rw [List.getLast?_cons_cons] at hm
      have hmem : m ∈ b :: t2 := List.mem_of_mem_getLast? hm
      rcases List.mem_cons.1 hx with rfl | hxt
      · exact List.rel_of_sorted_cons hs _ hmem
      · exact ih hs.of_cons x hxt m hm

/-- Stamping ingested_at stamps exactly the named ids. -/
theorem update_ingested_at_stamps (db : DB) (ids : List Int) (t : Int) :
    ∀ e ∈ (update_raw_events_ingested_at db ids t).raw_events,
      e.id ∈ ids → e.ingested_at = some t := by
  intro e he hid
  unfold update_raw_events_ingested_at at he
  rcases List.mem_map.1 he with ⟨e0, he0, rfl⟩
  by_cases hc : ids.contains e0.id = true
  · rw [if_pos hc]
  · rw [if_neg hc] at hid ⊢
    exfalso
    apply hc
    simp [List.contains]
    exact hid

/-- With pairwise distinct hashes, a hash that occurs occurs exactly once. -/
theorem filter_eq_one_of_nodup {α β : Type} [DecidableEq β] (f : α → β) :
    ∀ (l : List α) (x : β), (l.map f).Nodup → (∃ a ∈ l, f a = x) →
      (l.filter (fun a => f a == x)).length = 1 := by
  intro l
  induction l with
  | nil =>
    intro x _ hex
    simp at hex
  | cons a t ih =>
    intro x hnd hex
    rw [List.map_cons, List.nodup_cons] at hnd
    by_cases hax : f a = x
    · have ht : t.filter (fun b => f b == x) = [] := by
        rw [List.filter_eq_nil_iff]
        intro b hb
        simp only [beq_iff_eq]
        intro hbx
        exact hnd.1 (hax ▸ hbx ▸ List.mem_map_of_mem f hb)
      simp [List.filter_cons, hax, ht]
    · have hex2 : ∃ b ∈ t, f b = x := by
        rcases hex with ⟨b, hb, hbx⟩
        rcases List.mem_cons.1 hb with rfl | hbt
        · exact absurd hbx hax
        · exact ⟨b, hbt, hbx⟩
      simp only [List.filter_cons, beq_iff_eq, hax, if_false]
      exact ih x hnd.2 hex2

/-! ### Concrete states used by the witnesses and counterexamples -/

/-- A concrete stand-in for the digest parameter H in witnesses; the claims
hold for every H. -/
def hashId : String → String := fun s => s

/-- Version 1 of note 7: text Hello. -/
def nvA : NoteVersion := ⟨1, 7, 1, 100, none, "Hello", 5, none, none⟩

/-- Version 2 of note 7: text Hello World. -/
def nvB : NoteVersion := ⟨2, 7, 2, 200, none, "Hello World", 5, none, none⟩

/-- A provisioned checkpoint row at last_event_id zero. -/
def srcA : RawEventSource := ⟨1, "cogno.note_versions", "cogno", "0", none, none⟩

/-- Start state of the capture scenario: two domain rows, checkpoint at
zero, empty ledger. -/
def dbA : DB := ⟨[nvA, nvB], [srcA], [], [], 10, 20⟩

/-- A state with no checkpoint row at all. -/
def dbEmpty : DB := ⟨[], [], [], [], 1, 1⟩

/-- A checkpoint row whose last_event_id does not parse as an integer. -/
def srcBad : RawEventSource := ⟨1, "cogno.note_versions", "cogno", "abc", none, none⟩

/-- A state whose checkpoint value is non-numeric. -/
def dbBad : DB := ⟨[], [srcBad], [], [], 1, 1⟩

/-- A raw event of an event type that has no registered reducer. -/
def rawU : RawEvent := ⟨1, 100, none, 1, 5, "custom.event", 1, Json.null, "1"⟩

/-- A state holding only that unregistered-type raw event, unprocessed. -/
def dbU : DB := ⟨[], [], [rawU], [], 2, 1⟩

/-! ### C9 -/

/-- C9: if no checkpoint row exists for the (source type, source system)
pair, a capture cycle raises the configuration RuntimeError and aborts with
no side effects: the committed state is the input state, so no raw events
are inserted and no checkpoint is created or changed. -/
theorem capture_missing_checkpoint_aborts (now : Int) (db : DB)
    (h : get_raw_event_source db "cogno.note_versions" "cogno" = none) :
    process_note_versions now db =
      (Except.error (PyError.runtimeError "Raw event source not found"), db) := by
  unfold process_note_versions process_note_versions_f
  rw [h]

/-- C9 witness: a state with no checkpoint row. -/
theorem capture_missing_checkpoint_aborts_witness :
    get_raw_event_source dbEmpty "cogno.note_versions" "cogno" = none ∧
      process_note_versions 3 dbEmpty =
        (Except.error (PyError.runtimeError "Raw event source not found"), dbEmpty) :=
  ⟨rfl, capture_missing_checkpoint_aborts 3 dbEmpty rfl⟩

/-! ### C10 -/

/-- C10: if the checkpoint row exists but its last_event_id string does not
parse as a decimal integer, int() raises a ValueError before the domain
source is queried and the cycle aborts with the ledger and checkpoint
unchanged: the committed state is the input state. -/
theorem capture_non_numeric_checkpoint_aborts (now : Int) (db : DB)
    (src : RawEventSource)
    (h1 : get_raw_event_source db "cogno.note_versions" "cogno" = some src)
    (h2 : pyInt? src.last_event_id = none) :
    process_note_versions now db =
      (Except.error (PyError.valueError "invalid literal for int"), db) := by
  unfold process_note_versions process_note_versions_f
  simp only [h1, h2]

/-- C10 witness: checkpoint value abc. -/
theorem capture_non_numeric_checkpoint_aborts_witness :
    get_raw_event_source dbBad "cogno.note_versions" "cogno" = some srcBad ∧
      pyInt? srcBad.last_event_id = none ∧
      process_note_versions 7 dbBad =
        (Except.error (PyError.valueError "invalid literal for int"), dbBad) :=
  ⟨rfl, rfl, capture_non_numeric_checkpoint_aborts 7 dbBad srcBad rfl rfl⟩

/-! ### C2 -/

/-- C2: whenever a capture cycle raises after reading the checkpoint (here:
any raised error at all, including an injected failure of any insert step or
of the checkpoint update), the whole cycle rolls back atomically: the
committed state equals the input state, so no raw event inserted in the
cycle remains and the checkpoint row is unchanged, and the exception is the
returned error. -/
theorem capture_error_rolls_back (fault : Fault) (now : Int) (db : DB) (e : PyError)
    (h : (process_note_versions_f fault now db).1 = Except.error e) :
    (process_note_versions_f fault now db).2 = db := by
  unfold process_note_versions_f at h ⊢
  split
  · rfl
  · split
    · rfl
    · split
      · rfl
      · split
        · rfl
        · split
          · rfl
          · exfalso
            simp_all

unseal List.mergeSort List.merge in
/-- C2 witness: the spec scenario, checkpoint at zero and two domain rows,
with the checkpoint update forced to fail: the error is returned and the
state (ledger rows and checkpoint) is exactly the input state. -/
theorem capture_error_rolls_back_witness :
    (process_note_versions_f Fault.failCheckpoint 9 dbA).1 =
        Except.error PyError.injectedFault ∧
      (process_note_versions_f Fault.failCheckpoint 9 dbA).2 = dbA :=
  ⟨rfl, capture_error_rolls_back Fault.failCheckpoint 9 dbA PyError.injectedFault rfl⟩

/-! ### C1 -/

/-- C1 counterexample: a raw event whose event type has no registered
reducer is processed; RawEvent validation raises on the unknown event type
(the EventType enum has no such member), the transaction rolls back and the
error is re-raised.  The state is unchanged and ingested_at is still null,
so the event is not marked processed, contrary to the claim. -/
theorem process_event_unregistered_type_raises_cex :
    (process_event hashId 5 dbU 1).1 =
        Except.error (PyError.validationError "custom.event") ∧
      (process_event hashId 5 dbU 1).2 = dbU ∧
      (process_event hashId 5 dbU 1).2.raw_events.map RawEvent.ingested_at = [none] :=
  ⟨rfl, rfl, rfl⟩

/-- C1 (amended): for every stored raw event whose event type has no
registered reducer — with the single-member EventType enum that is any type
other than "note_version.created" — process_event raises pydantic's
ValidationError while fetching the row and rolls back: the error is
re-raised to the caller with the state equal to the input state, so no
semantic event is written and the raw event is not marked processed; the
in-service candidate-is-None skip path is dead code for such events. -/
theorem process_event_unregistered_type_raises (H : String → String) (now : Int)
    (db : DB) (raw_event_id : Int) (raw : RawEvent)
    (h1 : db.raw_events.find? (fun r => r.id == raw_event_id) = some raw)
    (h2 : raw.event_type ≠ "note_version.created") :
    process_event H now db raw_event_id =
      (Except.error (PyError.validationError raw.event_type), db) := by
  have hc : EventType.members.contains raw.event_type = false := by
    simp [EventType.members, h2]
  have hv : get_raw_event_by_id db raw_event_id =
      Except.error (PyError.validationError raw.event_type) := by
    unfold get_raw_event_by_id validateRawEvent?
    simp only [h1, hc, Bool.false_eq_true, if_false]
    rfl
  unfold process_event
  simp only [hv]

/-- C1 witness: the unregistered-type event of the counterexample state. -/
theorem process_event_unregistered_type_raises_witness :
    dbU.raw_events.find? (fun r => r.id == (1 : Int)) = some rawU ∧
      rawU.event_type ≠ "note_version.created" ∧
      process_event hashId 5 dbU 1 =
        (Except.error (PyError.validationError "custom.event"), dbU) :=
  ⟨rfl, by decide,
    process_event_unregistered_type_raises hashId 5 dbU 1 rawU rfl (by decide)⟩

/-! ### C4 and C5: checkpoint facts -/

/-- The checkpoint key of the note-version source, read as the integer the
capture service parses it into (0 when absent or unparsable; in those cases
a cycle leaves the state unchanged anyway). -/
def checkpointValue (db : DB) : Int :=
  match get_raw_event_source db "cogno.note_versions" "cogno" with
  | none => 0
  | some src => (pyInt? src.last_event_id).getD 0

/-- A sequence of capture cycles at the given clock ticks. -/
def captureChain : List Int → DB → DB
  | [], db => db
  | t :: ts, db => captureChain ts (process_note_versions t db).2

theorem get_raw_event_source_eq_of_sources (db1 db2 : DB)
    (h : db1.raw_event_sources = db2.raw_event_sources) (t s : String) :
    get_raw_event_source db1 t s = get_raw_event_source db2 t s := by
  unfold get_raw_event_source
  rw [h]

theorem get_note_versions_since_eq_of_nvs (db1 db2 : DB)
    (h : db1.note_versions = db2.note_versions) (k : Int) :
    get_note_versions_since db1 k = get_note_versions_since db2 k := by
  unfold get_note_versions_since
  rw [h]

/-- After the checkpoint update, the lookup for the pair finds the row with
the new key. -/
theorem get_src_after_checkpoint_update (db : DB) (src : RawEventSource)
    (h : get_raw_event_source db "cogno.note_versions" "cogno" = some src)
    (s : String) (t now2 : Int) :
    get_raw_event_source (update_raw_event_source_checkpoint db src.id s t now2)
      "cogno.note_versions" "cogno" =
      some { src with
        last_event_id := s,
        last_event_at := some t,
        updated_at := some now2 } := by
  unfold get_raw_event_source at h ⊢
  unfold update_raw_event_source_checkpoint
  rw [find?_map_of_pred _ _ _ ?hp]
  case hp =>
    intro x
    by_cases hx : (x.id == src.id) = true <;> simp [hx]
  rw [h]
  simp

/-- One capture cycle never decreases the checkpoint value. -/
theorem checkpointValue_le_step (now : Int) (db : DB) :
    checkpointValue db ≤ checkpointValue (process_note_versions now db).2 := by
  unfold process_note_versions process_note_versions_f
  split
  · exact le_refl _
  next src hsrc =>
    split
    · exact le_refl _
    next last hpi =>
      split
      · exact le_refl _
      next lastnv hgl =>
        split
        · exact le_refl _
        next db2 ids hins =>
          split
          · exact le_refl _
          next hf =>
            have hpres := insertLoop_preserves Fault.noFault src.id
              (get_note_versions_since db last) 0 db [] db2 ids hins
            have hsrc2 : get_raw_event_source db2 "cogno.note_versions" "cogno" =
                some src := by
              rw [get_raw_event_source_eq_of_sources db2 db hpres.2.1]
              exact hsrc
            have hfound := get_src_after_checkpoint_update db2 src hsrc2
              (toString lastnv.id) lastnv.created_at now
            have hlv : checkpointValue db = last := by
              unfold checkpointValue
              simp only [hsrc, hpi]
              rfl
            have hmem : lastnv ∈ get_note_versions_since db last :=
              List.mem_of_mem_getLast? (by rw [hgl]; rfl)
            have hlt : last < lastnv.id :=
              ((mem_get_note_versions_since db last lastnv).1 hmem).2
            have hrv : checkpointValue
                (update_raw_event_source_checkpoint db2 src.id (toString lastnv.id)
                  lastnv.created_at now) = lastnv.id := by
              unfold checkpointValue
              simp only [hfound, pyInt?_toString_int]
              rfl
            rw [hlv]
            show last ≤ checkpointValue (update_raw_event_source_checkpoint db2 src.id
              (toString lastnv.id) lastnv.created_at now)
            rw [hrv]
            omega

/-- C4: across every sequence of capture cycles the checkpoint key, compared
as an integer, never decreases; and whenever the queried batch is nonempty,
the cycle commits the checkpoint key as the string of the id of the last
element of the ascending batch, which is an upper bound of the ids of the
whole batch (so the checkpoint advances to the batch maximum, regardless of
how many of the inserts were duplicates). -/
theorem capture_checkpoint_monotone (now : Int) (db : DB) :
    (∀ nows : List Int, checkpointValue db ≤ checkpointValue (captureChain nows db)) ∧
    (∀ (src : RawEventSource) (last : Int) (lastnv : NoteVersion),
      get_raw_event_source db "cogno.note_versions" "cogno" = some src →
      pyInt? src.last_event_id = some last →
      (get_note_versions_since db last).getLast? = some lastnv →
      ∃ src2 : RawEventSource,
        get_raw_event_source (process_note_versions now db).2
            "cogno.note_versions" "cogno" = some src2 ∧
        src2.last_event_id = toString lastnv.id ∧
        checkpointValue (process_note_versions now db).2 = lastnv.id ∧
        ∀ nv ∈ get_note_versions_since db last, nv.id ≤ lastnv.id) := by
  constructor
  · intro nows
    induction nows generalizing db with
    | nil => exact le_refl _
    | cons t ts ih =>
      exact le_trans (checkpointValue_le_step t db) (ih (process_note_versions t db).2)
  · intro src last lastnv hsrc hpi hgl
    obtain ⟨db2, ids, hins⟩ :=
      insertLoop_noFault_ok src.id (get_note_versions_since db last) 0 db []
    have hres : (process_note_versions now db).2 =
        update_raw_event_source_checkpoint db2 src.id (toString lastnv.id)
          lastnv.created_at now := by
      unfold process_note_versions process_note_versions_f
      simp only [hsrc, hpi, hgl, hins]
      rw [if_neg (fun hx => Fault.noConfusion hx)]
    have hpres := insertLoop_preserves Fault.noFault src.id
      (get_note_versions_since db last) 0 db [] db2 ids hins
    have hsrc2 : get_raw_event_source db2 "cogno.note_versions" "cogno" = some src := by
      rw [get_raw_event_source_eq_of_sources db2 db hpres.2.1]
      exact hsrc
    have hfound := get_src_after_checkpoint_update db2 src hsrc2
      (toString lastnv.id) lastnv.created_at now
    refine ⟨{ src with
      last_event_id := toString lastnv.id,
      last_event_at := some lastnv.created_at,
      updated_at := some now }, ?_, rfl, ?_, ?_⟩
    · rw [hres]
      exact hfound
    · rw [hres]
      unfold checkpointValue
      simp only [hfound, pyInt?_toString_int]
      rfl
    · intro nv hnv
      exact le_getLast_of_sorted NoteVersion.id (get_note_versions_since db last)
        (get_note_versions_since_sorted db last) nv hnv lastnv hgl

unseal List.mergeSort List.merge in
/-- C4 witness: from checkpoint 0 with batch maximum id 2, a chain of one
cycle does not decrease the checkpoint, and the cycle commits checkpoint
value 2, the batch maximum. -/
theorem capture_checkpoint_monotone_witness :
    checkpointValue dbA ≤ checkpointValue (captureChain [500] dbA) ∧
      checkpointValue (process_note_versions 500 dbA).2 = nvB.id := by
  refine ⟨(capture_checkpoint_monotone 500 dbA).1 [500], ?_⟩
  obtain ⟨src2, h1, h2, h3, h4⟩ :=
    (capture_checkpoint_monotone 500 dbA).2 srcA 0 nvB rfl rfl rfl
  exact h3

/-- C5: if a capture cycle completes successfully and the domain source is
unchanged (the cycle itself never writes it), the immediately following
cycle inserts no raw events, leaves the checkpoint unchanged and returns the
empty id list: its committed state is exactly the state after the first
cycle. -/
theorem capture_idempotent (now1 now2 : Int) (db db1 : DB) (ids : List Int)
    (h : process_note_versions now1 db = (Except.ok ids, db1)) :
    process_note_versions now2 db1 = (Except.ok [], db1) := by
  unfold process_note_versions process_note_versions_f at h
  split at h
  · simp at h
  next src hsrc =>
    split at h
    · simp at h
    next last hpi =>
      split at h
      next hgl =>
        have hdb : db1 = db := by
          have := congrArg Prod.snd h
          exact this.symm
        subst hdb
        unfold process_note_versions process_note_versions_f
        simp only [hsrc, hpi, hgl]
      next lastnv hgl =>
        split at h
        · simp at h
        next db2 newly hins =>
          rw [if_neg (fun hx => Fault.noConfusion hx)] at h
          have hdb : db1 = update_raw_event_source_checkpoint db2 src.id
              (toString lastnv.id) lastnv.created_at now1 := by
            have := congrArg Prod.snd h
            exact this.symm
          have hpres := insertLoop_preserves Fault.noFault src.id
            (get_note_versions_since db last) 0 db [] db2 newly hins
          have hsrc2 : get_raw_event_source db2 "cogno.note_versions" "cogno" =
              some src := by
            rw [get_raw_event_source_eq_of_sources db2 db hpres.2.1]
            exact hsrc
          have hfound := get_src_after_checkpoint_update db2 src hsrc2
            (toString lastnv.id) lastnv.created_at now1
          have hnvs1 : db1.note_versions = db.note_versions := by
            rw [hdb]
            show db2.note_versions = db.note_versions
            exact hpres.1
          have hmem : lastnv ∈ get_note_versions_since db last :=
            List.mem_of_mem_getLast? (by rw [hgl]; rfl)
          have hlt : last < lastnv.id :=
            ((mem_get_note_versions_since db last lastnv).1 hmem).2
          have hbatch2 : get_note_versions_since db1 lastnv.id = [] := by
            rw [get_note_versions_since_eq_of_nvs db1 db hnvs1]
            unfold get_note_versions_since
            have hfil : db.note_versions.filter
                (fun nv => decide (lastnv.id < nv.id)) = [] := by
              rw [List.filter_eq_nil_iff]
              intro nv hnv
              simp only [decide_eq_true_eq]
              intro hgt
              by_cases hin : last < nv.id
              · have : nv ∈ get_note_versions_since db last :=
                  (mem_get_note_versions_since db last nv).2 ⟨hnv, hin⟩
                have := le_getLast_of_sorted NoteVersion.id _
                  (get_note_versions_since_sorted db last) nv this lastnv hgl
                omega
              · omega
            rw [hfil]
            exact List.mergeSort_nil
          unfold process_note_versions process_note_versions_f
          have hsrcdb1 : get_raw_event_source db1 "cogno.note_versions" "cogno" =
              some { src with
                last_event_id := toString lastnv.id,
                last_event_at := some lastnv.created_at,
                updated_at := some now1 } := by
            rw [hdb]
            exact hfound
          simp only [hsrcdb1, pyInt?_toString_int, hbatch2, List.getLast?_nil]

unseal List.mergeSort List.merge in
/-- C5 witness: the scenario capture inserts ids 10 and 11; running again on
the committed state returns the empty list and the same state. -/
theorem capture_idempotent_witness :
    process_note_versions 500 dbA =
        (Except.ok [10, 11], (process_note_versions 500 dbA).2) ∧
      process_note_versions 600 (process_note_versions 500 dbA).2 =
        (Except.ok [], (process_note_versions 500 dbA).2) := by
  have h1 : process_note_versions 500 dbA =
      (Except.ok [10, 11], (process_note_versions 500 dbA).2) := rfl
  exact ⟨h1, capture_idempotent 500 600 dbA (process_note_versions 500 dbA).2 [10, 11] h1⟩

/-! ### C3: idempotent reduction -/

/-- Number of stored semantic events carrying a given unique hash. -/
def hashCount (db : DB) (h : String) : Nat :=
  (db.semantic_events.filter (fun r => r.unique_hash == h)).length

/-- create_semantic_event only writes the semantic-event store and its id
sequence. -/
theorem create_semantic_event_preserves (db : DB) (e : SemanticEventCreate) :
    (create_semantic_event db e).2.raw_events = db.raw_events ∧
      (create_semantic_event db e).2.note_versions = db.note_versions := by
  unfold create_semantic_event
  by_cases hdup : db.semantic_events.any (fun r => r.unique_hash == e.unique_hash)
  · rw [if_pos hdup]
    exact ⟨rfl, rfl⟩
  · rw [if_neg hdup]
    exact ⟨rfl, rfl⟩

/-- When the hash is already stored, the insert is the no-op conflict
branch. -/
theorem create_semantic_event_conflict (db : DB) (e : SemanticEventCreate)
    (h : db.semantic_events.any (fun r => r.unique_hash == e.unique_hash) = true) :
    create_semantic_event db e = (none, db) := by
  unfold create_semantic_event
  rw [if_pos h]

/-- After create_semantic_event, a row with the hash is stored. -/
theorem hash_present_after_create (db : DB) (e : SemanticEventCreate) :
    ((create_semantic_event db e).2.semantic_events.any
      (fun r => r.unique_hash == e.unique_hash)) = true := by
  unfold create_semantic_event
  by_cases hdup : db.semantic_events.any (fun r => r.unique_hash == e.unique_hash)
  · rw [if_pos hdup]
    exact hdup
  · rw [if_neg hdup]
    simp

/-- After create_semantic_event on a store with pairwise distinct hashes,
exactly one row carries the hash. -/
theorem hashCount_after_create (db : DB) (e : SemanticEventCreate)
    (hnd : (db.semantic_events.map SemanticEventRow.unique_hash).Nodup) :
    ((create_semantic_event db e).2.semantic_events.filter
      (fun r => r.unique_hash == e.unique_hash)).length = 1 := by
  unfold create_semantic_event
  by_cases hdup : db.semantic_events.any (fun r => r.unique_hash == e.unique_hash)
  · rw [if_pos hdup]
    apply filter_eq_one_of_nodup SemanticEventRow.unique_hash db.semantic_events
      e.unique_hash hnd
    rcases List.any_eq_true.1 hdup with ⟨r, hr, hrx⟩
    exact ⟨r, hr, by simpa using hrx⟩
  · rw [if_neg hdup]
    have hnone : db.semantic_events.filter (fun r => r.unique_hash == e.unique_hash)
        = [] := by
      rw [List.filter_eq_nil_iff]
      intro r hr hrx
      exact absurd (List.any_eq_true.2 ⟨r, hr, hrx⟩) hdup
    simp [List.filter_append, hnone]

theorem get_prior_note_version_eq_of_nvs (db1 db2 : DB)
    (h : db1.note_versions = db2.note_versions) (n v : Int) :
    get_prior_note_version db1 n v = get_prior_note_version db2 n v := by
  unfold get_prior_note_version
  rw [h]

/-- The reducer reads only the note-version table of the state and the
payload, id, event type, workspace id and occurred-at of the raw event; in
particular a changed ingested_at does not change the candidate. -/
theorem NoteVersionReducer_reduce_congr (H : String → String) (db1 db2 : DB)
    (raw1 raw2 : RawEvent)
    (hnvs : db1.note_versions = db2.note_versions)
    (hpay : raw1.payload = raw2.payload)
    (hid : raw1.id = raw2.id)
    (het : raw1.event_type = raw2.event_type)
    (hws : raw1.workspace_id = raw2.workspace_id)
    (hoc : raw1.occurred_at = raw2.occurred_at) :
    NoteVersionReducer_reduce H db1 raw1 = NoteVersionReducer_reduce H db2 raw2 := by
  unfold NoteVersionReducer_reduce
  rw [hpay]
  cases hpv2 : jsonToNoteVersion? raw2.payload with
  | none => rfl
  | some nv2 =>
    dsimp only
    rw [get_prior_note_version_eq_of_nvs db1 db2 hnvs nv2.note_id nv2.version,
      hid, het, hws, hoc]

/-- C3: for a raw event whose type has a registered reducer and whose
reduction succeeds with candidate cand, running process_event twice (at
ticks t1 then t2, t1 at most t2, with the stored prior-version data
unchanged, which the call never writes) succeeds both times, leaves exactly
one semantic event carrying the candidate unique hash (under the unique-hash
constraint of the store, expressed as pairwise distinct stored hashes), and
both invocations stamp ingested_at on every id in the candidate
raw_event_ids list, first with t1 and then with t2, so the stamp never
decreases; in particular the second invocation hits the hash conflict and
still updates ingested_at. -/
theorem process_event_idempotent (H : String → String) (t1 t2 : Int) (db : DB)
    (raw_event_id : Int) (raw : RawEvent) (cand : SemanticEventCreate)
    (hnd : (db.semantic_events.map SemanticEventRow.unique_hash).Nodup)
    (hfind : get_raw_event_by_id db raw_event_id = Except.ok (some raw))
    (htype : raw.event_type = "note_version.created")
    (hred : NoteVersionReducer_reduce H db raw = Except.ok cand)
    (ht : t1 ≤ t2) :
    (process_event H t1 db raw_event_id).1 = Except.ok () ∧
    (process_event H t2 (process_event H t1 db raw_event_id).2 raw_event_id).1 =
      Except.ok () ∧
    hashCount (process_event H t2 (process_event H t1 db raw_event_id).2
      raw_event_id).2 cand.unique_hash = 1 ∧
    (∀ e ∈ ((process_event H t1 db raw_event_id).2).raw_events,
      e.id ∈ cand.raw_event_ids → e.ingested_at = some t1) ∧
    (∀ e ∈ ((process_event H t2 (process_event H t1 db raw_event_id).2
        raw_event_id).2).raw_events,
      e.id ∈ cand.raw_event_ids → e.ingested_at = some t2 ∧ t1 ≤ t2) := by
  rcases hpv : jsonToNoteVersion? raw.payload with _ | nv
  · exfalso
    have h2 := hred
    simp only [NoteVersionReducer_reduce, hpv] at h2
    exact Except.noConfusion h2
  · have h2 := hred
    simp only [NoteVersionReducer_reduce, hpv] at h2
    injection h2 with h4
    have hids : cand.raw_event_ids = [raw.id] := by
      rw [← h4]
    have hdisp1 : dispatch_event H db raw = Except.ok (some cand) := by
      unfold dispatch_event
      rw [if_pos htype, hred]
      rfl
    have hcall1 : process_event H t1 db raw_event_id =
        (Except.ok (), update_raw_events_ingested_at (create_semantic_event db cand).2
          cand.raw_event_ids t1) := by
      unfold process_event
      simp only [hfind, hdisp1]
    have hcre := create_semantic_event_preserves db cand
    have hre1 : (update_raw_events_ingested_at (create_semantic_event db cand).2
        cand.raw_event_ids t1).raw_events =
        db.raw_events.map (fun r =>
          if cand.raw_event_ids.contains r.id then { r with ingested_at := some t1 }
          else r) := by
      unfold update_raw_events_ingested_at
      rw [hcre.1]
    have hnvs1 : (update_raw_events_ingested_at (create_semantic_event db cand).2
        cand.raw_event_ids t1).note_versions = db.note_versions := by
      unfold update_raw_events_ingested_at
      exact hcre.2
    have hfind' : db.raw_events.find? (fun r => r.id == raw_event_id) = some raw :=
      get_raw_event_by_id_ok_some db raw_event_id raw hfind
    have hfindU : (update_raw_events_ingested_at (create_semantic_event db cand).2
        cand.raw_event_ids t1).raw_events.find? (fun r => r.id == raw_event_id) =
        some { raw with ingested_at := some t1 } := by
      rw [hre1, find?_map_of_pred _ _ _ ?hp2]
      case hp2 =>
        intro x
        by_cases hx : cand.raw_event_ids.contains x.id = true
        · rw [if_pos hx]
        · rw [if_neg hx]
      rw [hfind']
      simp [hids]
    have hfind2 : get_raw_event_by_id (update_raw_events_ingested_at
        (create_semantic_event db cand).2 cand.raw_event_ids t1) raw_event_id =
        Except.ok (some { raw with ingested_at := some t1 }) :=
      get_raw_event_by_id_of_find _ _ _ hfindU (by
        show EventType.members.contains raw.event_type = true
        rw [htype]
        rfl)
    have hred2 : NoteVersionReducer_reduce H (update_raw_events_ingested_at
        (create_semantic_event db cand).2 cand.raw_event_ids t1)
        { raw with ingested_at := some t1 } = Except.ok cand := by
      rw [← hred]
      exact NoteVersionReducer_reduce_congr H _ db _ raw hnvs1 rfl rfl rfl rfl rfl
    have hdisp2 : dispatch_event H (update_raw_events_ingested_at
        (create_semantic_event db cand).2 cand.raw_event_ids t1)
        { raw with ingested_at := some t1 } = Except.ok (some cand) := by
      unfold dispatch_event
      rw [if_pos (show ({ raw with ingested_at := some t1 } : RawEvent).event_type =
        "note_version.created" from htype), hred2]
      rfl
    have hpresent : ((update_raw_events_ingested_at (create_semantic_event db cand).2
        cand.raw_event_ids t1).semantic_events.any
          (fun r => r.unique_hash == cand.unique_hash)) = true := by
      show ((create_semantic_event db cand).2.semantic_events.any
        (fun r => r.unique_hash == cand.unique_hash)) = true
      exact hash_present_after_create db cand
    have hcr2 := create_semantic_event_conflict (update_raw_events_ingested_at
      (create_semantic_event db cand).2 cand.raw_event_ids t1) cand hpresent
    have hcall2 : process_event H t2 (update_raw_events_ingested_at
        (create_semantic_event db cand).2 cand.raw_event_ids t1) raw_event_id =
        (Except.ok (), update_raw_events_ingested_at (update_raw_events_ingested_at
          (create_semantic_event db cand).2 cand.raw_event_ids t1)
          cand.raw_event_ids t2) := by
      unfold process_event
      simp only [hfind2, hdisp2, hcr2]
    refine ⟨?_, ?_, ?_, ?_, ?_⟩
    · rw [hcall1]
    · rw [hcall1]
      exact congrArg Prod.fst hcall2
    · rw [hcall1]
      show hashCount (process_event H t2 (update_raw_events_ingested_at
        (create_semantic_event db cand).2 cand.raw_event_ids t1) raw_event_id).2
        cand.unique_hash = 1
      rw [hcall2]
      show hashCount (update_raw_events_ingested_at (update_raw_events_ingested_at
        (create_semantic_event db cand).2 cand.raw_event_ids t1)
        cand.raw_event_ids t2) cand.unique_hash = 1
      show ((create_semantic_event db cand).2.semantic_events.filter
        (fun r => r.unique_hash == cand.unique_hash)).length = 1
      exact hashCount_after_create db cand hnd
    · rw [hcall1]
      exact update_ingested_at_stamps (create_semantic_event db cand).2
        cand.raw_event_ids t1
    · rw [hcall1]
      show ∀ e ∈ ((process_event H t2 (update_raw_events_ingested_at
          (create_semantic_event db cand).2 cand.raw_event_ids t1)
          raw_event_id).2).raw_events,
        e.id ∈ cand.raw_event_ids → e.ingested_at = some t2 ∧ t1 ≤ t2
      rw [hcall2]
      intro e he hid2
      exact ⟨update_ingested_at_stamps (update_raw_events_ingested_at
        (create_semantic_event db cand).2 cand.raw_event_ids t1) cand.raw_event_ids t2
        e he hid2, ht⟩

/-- A second concrete digest stand-in whose result does not depend on its
argument, which keeps witness evaluation cheap. -/
def hashConst : String → String := fun _ => "h"

/-- The raw event captured for the first scenario version. -/
def rawA0 : RawEvent :=
  ⟨10, 100, none, 1, 5, "note_version.created", 1, noteVersionToJson nvA, "1"⟩

/-- A post-capture state with one note version and its raw event, nothing
reduced yet. -/
def dbW : DB := ⟨[nvA], [srcA], [rawA0], [], 11, 20⟩

/-- The enriched payload the reducer builds for rawA0 (first version, so the
diff is the empty string). -/
def enrA : EnrichedNoteVersionPayload := ⟨1, 7, 1, 100, none, "Hello", 5, none, none, ""⟩

/-- The candidate the reducer produces for rawA0 under hashConst. -/
def candW : SemanticEventCreate :=
  { event_type := "note_version.created", workspace_id := 5, occurred_at := 100,
    reducer_version := "1.0.0", raw_event_ids := [10],
    payload := enrichedToKVs enrA,
    unique_hash := compute_unique_hash hashConst "note_version.created" 5 [10]
      (enrichedToKVs enrA) }

unseal List.mergeSort List.merge in
/-- C3 witness: processing raw event 10 twice at ticks 900 then 901 leaves
one semantic event with the candidate hash and stamps ingested_at with 900
then 901. -/
theorem process_event_idempotent_witness :
    (process_event hashConst 900 dbW 10).1 = Except.ok () ∧
    (process_event hashConst 901 (process_event hashConst 900 dbW 10).2 10).1 =
      Except.ok () ∧
    hashCount (process_event hashConst 901 (process_event hashConst 900 dbW 10).2 10).2
      candW.unique_hash = 1 ∧
    (process_event hashConst 900 dbW 10).2.raw_events.map RawEvent.ingested_at =
      [some 900] ∧
    (process_event hashConst 901
        (process_event hashConst 900 dbW 10).2 10).2.raw_events.map
      RawEvent.ingested_at = [some 901] := by
  obtain ⟨a, b, c, d, e⟩ := process_event_idempotent hashConst 900 901 dbW 10 rawA0 candW
    (by simp [dbW]) rfl rfl rfl (by omega)
  exact ⟨a, b, c, rfl, rfl⟩

/-! ### C6 and C7: the idempotency hash -/

/-- C6: compute_unique_hash is the digest of the pipe-joined string of the
event type, the workspace id, the ascending-sorted ids joined by commas
(characterized: any sorted permutation of the ids gives the joined string),
and the hex digest of the payload serialized with sorted keys and no
extraneous whitespace (jsonDumps). -/
theorem compute_unique_hash_formula (H : String → String) (event_type : String)
    (workspace_id : Int) (raw_event_ids sorted_ids : List Int)
    (payload : List (String × Json))
    (hperm : sorted_ids.Perm raw_event_ids)
    (hsorted : sorted_ids.Sorted (· ≤ ·)) :
    compute_unique_hash H event_type workspace_id raw_event_ids payload =
      H (event_type ++ "|" ++ toString workspace_id ++ "|" ++
        String.intercalate "," (sorted_ids.map toString) ++ "|" ++
        H (jsonDumps (Json.obj payload))) := by
  unfold compute_unique_hash
  have hms : raw_event_ids.mergeSort (fun a b => decide (a ≤ b)) = sorted_ids := by
    refine List.eq_of_perm_of_sorted (r := fun a b : Int => a ≤ b) ?_ ?_ hsorted
    · exact (List.mergeSort_perm raw_event_ids _).trans hperm.symm
    · exact mergeSort_int_sorted raw_event_ids
  rw [hms]

/-- C6 witness: ids [2, 1] with sorted form [1, 2]. -/
theorem compute_unique_hash_formula_witness :
    compute_unique_hash hashId "note_version.created" 5 [2, 1] [] =
      hashId ("note_version.created" ++ "|" ++ toString (5 : Int) ++ "|" ++
        String.intercalate "," (([1, 2] : List Int).map toString) ++ "|" ++
        hashId (jsonDumps (Json.obj []))) :=
  compute_unique_hash_formula hashId "note_version.created" 5 [2, 1] [1, 2] []
    (by decide) (by decide)

/-- The object case of jsonDumps without the recursion bookkeeping. -/
theorem jsonDumps_obj (kvs : List (String × Json)) :
    jsonDumps (Json.obj kvs) = "\x7b" ++ String.intercalate ","
      ((sortKeys kvs).map (fun kv => jsonQuote kv.1 ++ ":" ++ jsonDumps kv.2)) ++
      "\x7d" := by
  simp only [jsonDumps]
  rw [show ((sortKeys kvs).attach.map
      (fun kv => jsonQuote kv.1.1 ++ ":" ++ jsonDumps kv.1.2)) =
    (sortKeys kvs).map (fun kv => jsonQuote kv.1 ++ ":" ++ jsonDumps kv.2) from
    List.attach_map_val (sortKeys kvs) (fun kv => jsonQuote kv.1 ++ ":" ++ jsonDumps kv.2)]

/-- C7: the hash does not depend on the order of the raw-event id list, nor
on the order in which the payload dict lists its (distinct-keyed)
key-value pairs. -/
theorem compute_unique_hash_deterministic (H : String → String) (event_type : String)
    (workspace_id : Int) (ids1 ids2 : List Int) (p1 p2 : List (String × Json))
    (hids : ids1.Perm ids2) (hp : p1.Perm p2) (hnd : (p1.map Prod.fst).Nodup) :
    compute_unique_hash H event_type workspace_id ids1 p1 =
      compute_unique_hash H event_type workspace_id ids2 p2 := by
  unfold compute_unique_hash
  rw [mergeSort_int_eq_of_perm ids1 ids2 hids]
  rw [jsonDumps_obj p1, jsonDumps_obj p2, sortKeys_eq_of_perm p1 p2 hp hnd]

/-- C7 witness: ids [2, 1] versus [1, 2] and a two-key payload given in the
two possible orders. -/
theorem compute_unique_hash_deterministic_witness :
    compute_unique_hash hashId "note_version.created" 5 [2, 1]
        [("b", Json.num 1), ("a", Json.num 2)] =
      compute_unique_hash hashId "note_version.created" 5 [1, 2]
        [("a", Json.num 2), ("b", Json.num 1)] :=
  compute_unique_hash_deterministic hashId "note_version.created" 5 [2, 1] [1, 2]
    [("b", Json.num 1), ("a", Json.num 2)] [("a", Json.num 2), ("b", Json.num 1)]
    (by decide) (List.Perm.swap ("a", Json.num 2) ("b", Json.num 1) [])
    (by decide)

/-! ### C8: the note-version diff -/

